import Mathlib

/-!
Shallow embedding of the selene repository's two core modules:
the interval-weighted sampling engine (selene/samplers/intervals_sampler.py)
and the variant effect prediction helpers
(selene_sdk/predict/_variant_effect_prediction.py).

Python sequences are embedded as Lean lists, Python strings as lists of
characters, numpy float arithmetic as exact rational arithmetic, and the
random generators as explicit parameters.  Fallible operations return
Option or Except values.
-/

/-! ### Weighted index selection (intervals_sampler.py, _get_indices_and_probabilities) -/

/-- The weight-pruning threshold 1e-10 from the source. -/
def weightThreshold : ℚ := 1 / 10 ^ 10

/-- The selected interval lengths: np.array(interval_lengths)[indices]. -/
def selectLens (intervalLengths : List ℤ) (indices : List ℕ) : List ℤ :=
  indices.map (fun i => intervalLengths.getD i 0)

/-- The raw weights: select_interval_lens / float(np.sum(select_interval_lens)). -/
def weightsOf (intervalLengths : List ℤ) (indices : List ℕ) : List ℚ :=
  (selectLens intervalLengths indices).map
    (fun l : ℤ => (l : ℚ) / ((selectLens intervalLengths indices).sum : ℚ))

/-- The surviving indices: those whose weight exceeds the threshold, in order. -/
def keepIndices (intervalLengths : List ℤ) (indices : List ℕ) : List ℕ :=
  ((indices.zip (weightsOf intervalLengths indices)).filter
    (fun p => decide (weightThreshold < p.2))).map Prod.fst

/-- Fuel-indexed recursion for _get_indices_and_probabilities.  Each recursive
call strictly shrinks the index list, so fuel = initial list length suffices. -/
def giapAux (intervalLengths : List ℤ) : ℕ → List ℕ → List ℕ × List ℚ
  | 0, indices => (indices, weightsOf intervalLengths indices)
  | fuel + 1, indices =>
    if (keepIndices intervalLengths indices).length = indices.length then
      (indices, weightsOf intervalLengths indices)
    else
      giapAux intervalLengths fuel (keepIndices intervalLengths indices)

/-- Embedding of _get_indices_and_probabilities: weight the candidate indices
by interval length, drop any index whose weight is at most 1e-10, and recurse
on the surviving subset until no index falls below the threshold. -/
def _get_indices_and_probabilities (intervalLengths : List ℤ) (indices : List ℕ) :
    List ℕ × List ℚ :=
  giapAux intervalLengths indices.length indices

/-! ### Proportional partition (intervals_sampler.py, _partition_dataset_proportion) -/

/-- The holdout size int(n_intervals * fraction), truncated toward zero for
nonnegative fractions. -/
def nHoldout (n : ℕ) (fraction : ℚ) : ℕ := (⌊(n : ℚ) * fraction⌋).toNat

/-- Candidate validation slice: select_indices[:n_indices_validate]. -/
def propValCand (shuffled : List ℕ) (n : ℕ) (v : ℚ) : List ℕ :=
  shuffled.take (nHoldout n v)

/-- Candidate test slice: select_indices[n_indices_validate:test_indices_end]. -/
def propTestCand (shuffled : List ℕ) (n : ℕ) (v t : ℚ) : List ℕ :=
  (shuffled.drop (nHoldout n v)).take (nHoldout n t)

/-- Candidate training slice: select_indices[test_indices_end:]. -/
def propTrainCand (shuffled : List ℕ) (n : ℕ) (v t : ℚ) : List ℕ :=
  shuffled.drop (nHoldout n v + nHoldout n t)

/-- The three stored partitions; test is absent when the test holdout is falsy. -/
structure PropPartition where
  validate : List ℕ × List ℚ
  test : Option (List ℕ × List ℚ)
  train : List ℕ × List ℚ

/-- Embedding of _partition_dataset_proportion: the interval file is already
read into the per-interval length table, and the shuffled index list produced
by np.random.shuffle is passed explicitly. -/
def _partition_dataset_proportion (intervalLengths : List ℤ) (shuffled : List ℕ)
    (v t : ℚ) : PropPartition :=
  let n := intervalLengths.length
  if t ≠ 0 then
    { validate := _get_indices_and_probabilities intervalLengths (propValCand shuffled n v)
      test := some (_get_indices_and_probabilities intervalLengths (propTestCand shuffled n v t))
      train := _get_indices_and_probabilities intervalLengths (propTrainCand shuffled n v t) }
  else
    { validate := _get_indices_and_probabilities intervalLengths (propValCand shuffled n v)
      test := none
      train := _get_indices_and_probabilities intervalLengths (shuffled.drop (nHoldout n v)) }

/-! ### Variant window coordinate arithmetic (_variant_effect_prediction.py) -/

/-- Embedding of _get_ref_idxs.  Strands are characters; the reference length
is a natural number (a string length in the source). -/
def _get_ref_idxs (mid : ℤ) (strand : Char) (refLen : ℕ) : ℤ × ℤ :=
  let startPos : ℤ :=
    if strand = '-' ∧ 1 < refLen then mid - ((refLen : ℤ) + 1) / 2 + 1
    else if strand = '+' ∧ refLen = 1 then mid - 1
    else if strand = '+' then mid - (refLen : ℤ) / 2 - 1
    else mid
  (startPos, startPos + (refLen : ℤ))

/-! ### Per-mode random draw cache (intervals_sampler.py, _update_randcache / sample) -/

/-- Pick a position from a cumulative weight walk: the first index whose
cumulative weight strictly exceeds the uniform draw. -/
def pickIndex : List ℚ → ℚ → ℕ
  | [], _ => 0
  | w :: ws, r => if r < w then 0 else pickIndex ws (r - w) + 1

/-- Modelled from the spec: np.random.choice(a, size, replace=True, p) is an
external numpy collaborator absent from the sources.  Per the spec contract it
draws size elements with replacement from the index list with the given
per-index probabilities, and fails on an empty index list or an invalid
probability vector.  The generator is a stream of uniform draws in [0, 1). -/
def npChoice (l : List ℕ) (p : List ℚ) (rng : ℕ → ℚ) (n : ℕ) : Option (List ℕ) :=
  if l = [] ∨ p.length ≠ l.length ∨ p.sum ≠ 1 ∨ ¬ (∀ x ∈ p, 0 ≤ x) then none
  else some ((List.range n).map (fun k => l.getD (pickIndex p (rng k)) 0))

/-- A valid probability vector for a partition, as numpy requires it. -/
def validWeights (si : List ℕ × List ℚ) : Prop :=
  si.2.length = si.1.length ∧ si.2.sum = 1 ∧ ∀ x ∈ si.2, 0 ≤ x

/-- One mode's entry of self._randcache. -/
structure RandCache where
  cache_indices : List ℕ
  sample_next : ℕ
deriving DecidableEq

/-- Embedding of _update_randcache for one mode: redraw the cache (length =
partition size, drawn from the partition indices with the partition weights)
and reset the cursor to 0.  Returns none when the numpy draw raises. -/
def _update_randcache (si : List ℕ × List ℚ) (rng : ℕ → ℚ) : Option RandCache :=
  (npChoice si.1 si.2 rng si.1.length).map (fun c => { cache_indices := c, sample_next := 0 })

/-- One next-index read from the cache, as performed at the top of sample():
refill first when the cursor has reached the partition size, then read the
cache at the cursor and advance it.  Returns none when a read goes out of
bounds or a refill raises. -/
def sampleNextIndex (si : List ℕ × List ℚ) (rng : ℕ → ℚ) (rc : RandCache) :
    Option (ℕ × RandCache) :=
  if rc.sample_next = si.1.length then
    match _update_randcache si rng with
    | none => none
    | some rc2 =>
      (rc2.cache_indices[0]?).map (fun v => (v, { rc2 with sample_next := 1 }))
  else
    (rc.cache_indices[rc.sample_next]?).map
      (fun v => (v, { rc with sample_next := rc.sample_next + 1 }))

/-- k successive next-index reads, collecting the indices that were read. -/
def readN (si : List ℕ × List ℚ) (rng : ℕ → ℚ) (rc : RandCache) :
    ℕ → Option (List ℕ × RandCache)
  | 0 => some ([], rc)
  | k + 1 =>
    match sampleNextIndex si rng rc with
    | none => none
    | some (v, rc2) => (readN si rng rc2 k).map (fun p => (v :: p.1, p.2))

/-- The three sampling modes; modelled from the spec (the modes list lives in
the absent OnlineSampler base class, which the spec fixes to train, validate
and test). -/
inductive Mode
  | train
  | validate
  | test
deriving DecidableEq

/-- The randcache initialisation loop at the end of IntervalsSampler.__init__:
refill every mode, failing if any mode's draw raises. -/
def initRandcaches (sfm : Mode → List ℕ × List ℚ) (rng : ℕ → ℚ) :
    Option (Mode → RandCache) :=
  match _update_randcache (sfm .train) rng, _update_randcache (sfm .validate) rng,
      _update_randcache (sfm .test) rng with
  | some a, some b, some c =>
    some (fun m => match m with | .train => a | .validate => b | .test => c)
  | _, _, _ => none

/-! ### Allele sequence reconstruction (_variant_effect_prediction.py, _process_alt) -/

/-- Modelled from the spec: _truncate_sequence lives in the absent _common
module; per the spec it truncates the sequence to the window length, dropping
the extra bases from the far end without re-centering. -/
def _truncate_sequence (s : List Char) (n : ℕ) : List Char := s.take n

/-- The sequence text reconstructed by _process_alt before its final encoding
step.  getSeq embeds reference_sequence.get_sequence_from_coords (chrom and
strand fixed, padding on). -/
def _process_alt_seq (pos : ℤ) (ref alt : List Char) (startC endC : ℤ)
    (strand : Char) (wt : List Char) (startRadius : ℤ)
    (getSeq : ℤ → ℤ → List Char) : List Char :=
  let alt := if alt = ['*'] ∨ alt = ['-'] then [] else alt
  let refLen := ref.length
  let altLen := alt.length
  if wt.length < altLen then
    _truncate_sequence alt wt.length
  else if refLen = altLen then
    let p := _get_ref_idxs startRadius strand refLen
    wt.take p.1.toNat ++ alt ++ wt.drop p.2.toNat
  else if refLen < altLen then
    let p := _get_ref_idxs startRadius strand refLen
    _truncate_sequence
      (wt.take p.1.toNat ++ alt ++ wt.drop (p.1 + (refLen : ℤ)).toNat) wt.length
  else
    let lhs := getSeq (startC - (refLen : ℤ) / 2 + (altLen : ℤ) / 2) (pos + 1)
    let rhs := getSeq (pos + 1 + (refLen : ℤ))
      (endC + ((refLen : ℤ) + 1) / 2 - ((altLen : ℤ) + 1) / 2)
    if strand = '-' then rhs ++ alt ++ lhs else lhs ++ alt ++ rhs

/-- Embedding of _process_alt: reconstruct the text and encode it through the
reference sequence collaborator's encoding function. -/
def _process_alt {E : Type} (enc : List Char → E) (pos : ℤ) (ref alt : List Char)
    (startC endC : ℤ) (strand : Char) (wt : List Char) (startRadius : ℤ)
    (getSeq : ℤ → ℤ → List Char) : E :=
  enc (_process_alt_seq pos ref alt startC endC strand wt startRadius getSeq)

/-! ### Reference reconciliation (_variant_effect_prediction.py, _handle_standard_ref) -/

/-- Embedding of _handle_standard_ref.  Encodings are lists of rows of some
type E; dec embeds reference_sequence.encoding_to_sequence. -/
def _handle_standard_ref {E : Type} [DecidableEq E] (refEnc seqEnc : List E)
    (mid : ℤ) (dec : List E → List Char) (strand : Char) :
    Bool × List E × List Char :=
  let refLen := refEnc.length
  let p := _get_ref_idxs mid strand refLen
  let sub := (seqEnc.drop p.1.toNat).take refLen
  let seqAtRef := dec sub
  if sub = refEnc then
    (true, seqEnc, seqAtRef)
  else
    (false, seqEnc.take p.1.toNat ++ refEnc ++ seqEnc.drop (p.1.toNat + refLen), seqAtRef)

/-! ### VCF reading (_variant_effect_prediction.py, read_vcf_file) -/

/-- The pattern pat starts the character list s. -/
def hasPre : List Char → List Char → Bool
  | _, [] => true
  | [], _ :: _ => false
  | a :: s, b :: t => a = b && hasPre s t

/-- pat occurs somewhere inside s: the Python substring test pat in s. -/
def hasSub : List Char → List Char → Bool
  | [], pat => hasPre [] pat
  | a :: s, pat => hasPre (a :: s) pat || hasSub s pat

/-- Python str.strip(): remove leading and trailing whitespace. -/
def pyStrip (s : List Char) : List Char :=
  ((s.dropWhile Char.isWhitespace).reverse.dropWhile Char.isWhitespace).reverse

/-- Python str.split(sep) for a one-character separator: no collapsing of
adjacent separators, and the empty string splits to one empty field. -/
def splitOnChar (c : Char) : List Char → List (List Char)
  | [] => [[]]
  | a :: s =>
    if a = c then [] :: splitOnChar c s
    else
      match splitOnChar c s with
      | [] => [[a]]
      | t :: ts => (a :: t) :: ts

/-- Digits-only natural number parse. -/
def parseNatDigits (ds : List Char) : Option ℕ :=
  if ds ≠ [] ∧ ds.all Char.isDigit then
    some (ds.foldl (fun a c => a * 10 + (c.toNat - 48)) 0)
  else none

/-- Python int() on a string, for optionally signed decimal literals. -/
def parseInt? (s : List Char) : Option ℤ :=
  match s with
  | '-' :: ds => (parseNatDigits ds).map (fun n => -(n : ℤ))
  | '+' :: ds => (parseNatDigits ds).map (fun n => (n : ℤ))
  | ds => (parseNatDigits ds).map (fun n => (n : ℤ))

/-- One parsed variant record (chrom, pos, id, ref, alt, strand). -/
structure Variant where
  chrom : List Char
  pos : ℤ
  name : List Char
  ref : List Char
  alt : List Char
  strand : Char
deriving DecidableEq

/-- The required first five header columns of the VCF-like file. -/
def vcfRequiredCols : List (List Char) :=
  ["#CHROM".toList, "POS".toList, "ID".toList, "REF".toList, "ALT".toList]

/-- Processing of one data line of the VCF-like file: skip short lines, parse
the fixed columns, normalise a reference of "-" to the empty string, map the
optional strand column, and expand comma-separated alternate alleles into one
record each. -/
def parseDataLine (strandIndex : Option ℕ) (line : List Char) :
    Except String (List Variant) :=
  let cols := splitOnChar '\t' (pyStrip line)
  if cols.length < 5 then .ok []
  else
    match parseInt? (cols.getD 1 []) with
    | none => .error "invalid position"
    | some pos =>
      let chrom := cols.getD 0 []
      let name := cols.getD 2 []
      let ref0 := cols.getD 3 []
      let ref := if ref0 = ['-'] then [] else ref0
      let alt := cols.getD 4 []
      let mkAll := fun (strand : Char) =>
        Except.ok ((splitOnChar ',' alt).map (fun a =>
          { chrom := chrom, pos := pos, name := name, ref := ref,
            alt := a, strand := strand : Variant }))
      match strandIndex with
      | none => mkAll '.'
      | some k =>
        match cols[k]? with
        | none => .error "strand index out of range"
        | some sv =>
          if sv = ['-'] then mkAll '-'
          else if sv = ['+'] ∨ sv = ['.'] then mkAll '+'
          else .ok []

/-- The header scan loop of read_vcf_file: walk the lines while they contain
a hash character; on the line containing #CHROM check the first five columns
and point the data section just past it; on a hash-free line the data section
starts there; if the loop runs out, the data section starts at the last line,
mirroring the Python enumerate index after an exhausted loop. -/
def headerScan : List String → ℕ → Except String ℕ
  | [], i => .ok i
  | [line], i =>
    if ¬ (line.toList.contains '#') then .ok i
    else if hasSub line.toList "#CHROM".toList then
      if (splitOnChar '\t' (pyStrip line.toList)).take 5 ≠ vcfRequiredCols then
        .error "unexpected VCF header columns"
      else .ok (i + 1)
    else .ok i
  | line :: rest, i =>
    if ¬ (line.toList.contains '#') then .ok i
    else if hasSub line.toList "#CHROM".toList then
      if (splitOnChar '\t' (pyStrip line.toList)).take 5 ≠ vcfRequiredCols then
        .error "unexpected VCF header columns"
      else .ok (i + 1)
    else headerScan rest (i + 1)

/-- Embedding of read_vcf_file: the file is a list of raw lines. -/
def read_vcf_file (lines : List String) (strandIndex : Option ℕ) :
    Except String (List Variant) := do
  let start ← headerScan lines 0
  let recss ← (lines.drop start).mapM (fun l => parseDataLine strandIndex l.toList)
  return recss.flatten

/-! ## Lemmas about the weighted index selector -/

theorem sum_map_div (l : List ℚ) (c : ℚ) :
    (l.map (fun x => x / c)).sum = l.sum / c := by
  induction l with
  | nil => simp
  | cons a t ih => simp [ih, add_div]

theorem selectLens_length (L : List ℤ) (I : List ℕ) :
    (selectLens L I).length = I.length := by
  simp [selectLens]

theorem weightsOf_length (L : List ℤ) (I : List ℕ) :
    (weightsOf L I).length = I.length := by
  rw [weightsOf, List.length_map, selectLens_length]

theorem cast_sum_rat (l : List ℤ) :
    (l.map (fun z : ℤ => (z : ℚ))).sum = (l.sum : ℚ) := by
  induction l with
  | nil => simp
  | cons a t ih =>
    rw [List.map_cons, List.sum_cons, List.sum_cons, ih]
    push_cast
    ring

theorem weightsOf_sum (L : List ℤ) (I : List ℕ)
    (h : (selectLens L I).sum ≠ 0) : (weightsOf L I).sum = 1 := by
  have hc : ((selectLens L I).sum : ℚ) ≠ 0 := by exact_mod_cast h
  have hrw : ((selectLens L I).map (fun z : ℤ => (z : ℚ))).map
      (fun x => x / ((selectLens L I).sum : ℚ)) = weightsOf L I := by
    rw [List.map_map]
    rfl
  rw [← hrw, sum_map_div, cast_sum_rat]
  exact div_self hc

theorem zip_weightsOf_snd (L : List ℤ) (I : List ℕ) :
    ∀ p ∈ I.zip (weightsOf L I),
      p.2 = (L.getD p.1 0 : ℚ) / ((selectLens L I).sum : ℚ) := by
  intro p hp
  obtain ⟨j, hj, hget⟩ := List.mem_iff_getElem.mp hp
  have hjI : j < I.length := by
    rw [List.length_zip, weightsOf_length, min_self] at hj; exact hj
  have hjW : j < (weightsOf L I).length := by rw [weightsOf_length]; exact hjI
  rw [← hget, List.getElem_zip]
  simp only [weightsOf, selectLens, List.getElem_map]

theorem keepIndices_subset (L : List ℤ) (I : List ℕ) :
    ∀ i ∈ keepIndices L I, i ∈ I := by
  intro i hi
  obtain ⟨p, hp, rfl⟩ := List.mem_map.mp hi
  exact (List.of_mem_zip (List.mem_filter.mp hp).1).1

theorem keepIndices_length_le (L : List ℤ) (I : List ℕ) :
    (keepIndices L I).length ≤ I.length := by
  simp only [keepIndices, List.length_map]
  refine le_trans (List.Sublist.length_le (List.filter_sublist _)) ?_
  rw [List.length_zip, weightsOf_length, min_self]

theorem keep_full_weights (L : List ℤ) (I : List ℕ)
    (h : (keepIndices L I).length = I.length) :
    ∀ w ∈ weightsOf L I, weightThreshold < w := by
  have hz : (I.zip (weightsOf L I)).length = I.length := by
    rw [List.length_zip, weightsOf_length, min_self]
  have hfl : ((I.zip (weightsOf L I)).filter
      (fun p => decide (weightThreshold < p.2))).length =
      (I.zip (weightsOf L I)).length := by
    simp only [keepIndices, List.length_map] at h
    omega
  have hfeq := (List.filter_sublist
    (p := fun p => decide (weightThreshold < p.2))
    (I.zip (weightsOf L I))).eq_of_length hfl
  intro w hw
  obtain ⟨j, hjW, hget⟩ := List.mem_iff_getElem.mp hw
  have hjI : j < I.length := by rw [weightsOf_length] at hjW; exact hjW
  have hjz : j < (I.zip (weightsOf L I)).length := by omega
  have hmem : (I[j], w) ∈ I.zip (weightsOf L I) :=
    List.mem_iff_getElem.mpr ⟨j, hjz, by rw [List.getElem_zip, hget]⟩
  have hmf : (I[j], w) ∈ (I.zip (weightsOf L I)).filter
      (fun p => decide (weightThreshold < p.2)) := by
    rw [hfeq]; exact hmem
  exact of_decide_eq_true (List.mem_filter.mp hmf).2

theorem exists_sum_le_length_mul :
    ∀ l : List ℤ, l ≠ [] → ∃ x ∈ l, l.sum ≤ (l.length : ℤ) * x := by
  intro l
  induction l with
  | nil => intro h; exact absurd rfl h
  | cons a t ih =>
    intro _
    rcases eq_or_ne t [] with rfl | ht
    · exact ⟨a, List.mem_cons_self a [], by simp⟩
    · obtain ⟨x, hx, hle⟩ := ih ht
      rcases le_total a x with hax | hxa
      · refine ⟨x, List.mem_cons_of_mem a hx, ?_⟩
        rw [List.sum_cons, List.length_cons]
        push_cast
        nlinarith [hle]
      · refine ⟨a, List.mem_cons_self a t, ?_⟩
        have hmul : (t.length : ℤ) * x ≤ (t.length : ℤ) * a :=
          mul_le_mul_of_nonneg_left hxa (by positivity)
        rw [List.sum_cons, List.length_cons]
        push_cast
        nlinarith [hle, hmul]

theorem keepIndices_ne_nil (L : List ℤ) (I : List ℕ)
    (hpos : 0 < (selectLens L I).sum) (hsize : I.length < 10 ^ 10) :
    keepIndices L I ≠ [] := by
  have hIne : I ≠ [] := by
    rintro rfl; simp [selectLens] at hpos
  have hlne : selectLens L I ≠ [] := by
    intro h
    apply hIne
    have hl := selectLens_length L I
    rw [h] at hl
    exact List.length_eq_zero.mp hl.symm
  obtain ⟨x, hx, hle⟩ := exists_sum_le_length_mul _ hlne
  obtain ⟨j, hj, hgx⟩ := List.mem_iff_getElem.mp hx
  have hjI : j < I.length := by rw [selectLens_length] at hj; exact hj
  have hjW : j < (weightsOf L I).length := by rw [weightsOf_length]; exact hjI
  have hWj : (weightsOf L I)[j] =
      ((selectLens L I)[j] : ℚ) / ((selectLens L I).sum : ℚ) := by
    simp only [weightsOf, List.getElem_map]
  have h1 : (0 : ℚ) < ((selectLens L I).sum : ℚ) := by exact_mod_cast hpos
  have hn0 : (0 : ℚ) < (I.length : ℚ) := by
    have := List.length_pos.mpr hIne; exact_mod_cast this
  have h2 : ((selectLens L I).sum : ℚ) ≤ (I.length : ℚ) * (x : ℚ) := by
    have hl := selectLens_length L I
    rw [hl] at hle
    exact_mod_cast hle
  have hxpos : (0 : ℚ) < (x : ℚ) := by
    by_contra hc
    push_neg at hc
    have : (I.length : ℚ) * (x : ℚ) ≤ 0 := mul_nonpos_of_nonneg_of_nonpos hn0.le hc
    linarith
  have hlt10 : (I.length : ℚ) < 10 ^ 10 := by exact_mod_cast hsize
  have hthresh : weightThreshold < (weightsOf L I)[j] := by
    rw [hWj, hgx, weightThreshold, div_lt_div_iff₀ (by norm_num) h1]
    nlinarith [mul_lt_mul_of_pos_right hlt10 hxpos]
  have hjz : j < (I.zip (weightsOf L I)).length := by
    rw [List.length_zip, weightsOf_length, min_self]; exact hjI
  have hmem : (I[j], (weightsOf L I)[j]) ∈ I.zip (weightsOf L I) :=
    List.mem_iff_getElem.mpr ⟨j, hjz, List.getElem_zip⟩
  have hkeep : I[j] ∈ keepIndices L I := by
    rw [keepIndices]
    exact List.mem_map_of_mem Prod.fst
      (List.mem_filter.mpr ⟨hmem, decide_eq_true hthresh⟩)
  exact List.ne_nil_of_mem hkeep

theorem keep_mem_pos (L : List ℤ) (I : List ℕ)
    (hpos : 0 < (selectLens L I).sum) :
    ∀ i ∈ keepIndices L I, 0 < L.getD i 0 := by
  intro i hi
  obtain ⟨p, hpf, hfst⟩ := List.mem_map.mp hi
  have hm := List.mem_filter.mp hpf
  have hsnd := zip_weightsOf_snd L I p hm.1
  have hth : weightThreshold < p.2 := of_decide_eq_true hm.2
  have h1 : (0 : ℚ) < ((selectLens L I).sum : ℚ) := by exact_mod_cast hpos
  rw [hsnd] at hth
  have hth0 : (0 : ℚ) < weightThreshold := by norm_num [weightThreshold]
  have hq : (0 : ℚ) < (L.getD p.1 0 : ℚ) / ((selectLens L I).sum : ℚ) :=
    lt_trans hth0 hth
  have hnum : (0 : ℚ) < (L.getD p.1 0 : ℚ) := by
    rcases div_pos_iff.mp hq with ⟨ha, _⟩ | ⟨_, hb⟩
    · exact ha
    · linarith
  rw [← hfst]
  exact_mod_cast hnum

theorem keep_sum_pos (L : List ℤ) (I : List ℕ)
    (hpos : 0 < (selectLens L I).sum) (hsize : I.length < 10 ^ 10) :
    0 < (selectLens L (keepIndices L I)).sum := by
  refine List.sum_pos _ ?_ ?_
  · intro x hx
    obtain ⟨i, hi, rfl⟩ := List.mem_map.mp hx
    exact keep_mem_pos L I hpos i hi
  · intro h
    apply keepIndices_ne_nil L I hpos hsize
    have hl := selectLens_length L (keepIndices L I)
    rw [h] at hl
    exact List.length_eq_zero.mp hl.symm

theorem giap_spec (L : List ℤ) (fuel : ℕ) :
    ∀ I : List ℕ, I.length ≤ fuel → 0 < (selectLens L I).sum →
      I.length < 10 ^ 10 →
      (giapAux L fuel I).1.length = (giapAux L fuel I).2.length ∧
      (giapAux L fuel I).2.sum = 1 ∧
      (∀ w ∈ (giapAux L fuel I).2, weightThreshold < w) ∧
      giapAux L (giapAux L fuel I).1.length (giapAux L fuel I).1 =
        giapAux L fuel I ∧
      (∀ i ∈ (giapAux L fuel I).1, i ∈ I) := by
  induction fuel with
  | zero =>
    intro I hle hpos _
    have hnil : I = [] := List.length_eq_zero.mp (Nat.le_zero.mp hle)
    subst hnil
    simp [selectLens] at hpos
  | succ fuel ih =>
    intro I hle hpos hsize
    by_cases hk : (keepIndices L I).length = I.length
    · have hunf : giapAux L (fuel + 1) I = (I, weightsOf L I) := by
        simp [giapAux, hk]
      rw [hunf]
      have hsum : (weightsOf L I).sum = 1 := weightsOf_sum L I (ne_of_gt hpos)
      refine ⟨(weightsOf_length L I).symm, hsum, keep_full_weights L I hk, ?_,
        fun i hi => hi⟩
      have hIne : I ≠ [] := by rintro rfl; simp [selectLens] at hpos
      obtain ⟨a, I', rfl⟩ := List.exists_cons_of_ne_nil hIne
      simp [giapAux, hk]
    · have hunf : giapAux L (fuel + 1) I = giapAux L fuel (keepIndices L I) := by
        simp [giapAux, hk]
      have hklt : (keepIndices L I).length < I.length :=
        lt_of_le_of_ne (keepIndices_length_le L I) hk
      obtain ⟨c1, c2, c3, c4, c5⟩ := ih (keepIndices L I) (by omega)
        (keep_sum_pos L I hpos hsize) (by omega)
      rw [hunf]
      exact ⟨c1, c2, c3, c4, fun i hi => keepIndices_subset L I i (c5 i hi)⟩

theorem giapAux_nil (L : List ℤ) (fuel : ℕ) : giapAux L fuel [] = ([], []) := by
  cases fuel <;> rfl

theorem giapAux_pos_fuel (L : List ℤ) (fuel : ℕ) (I : List ℕ) (hf : 0 < fuel) :
    giapAux L fuel I =
      if (keepIndices L I).length = I.length then (I, weightsOf L I)
      else giapAux L (fuel - 1) (keepIndices L I) := by
  cases fuel with
  | zero => omega
  | succ m => simp [giapAux]

theorem selectLens_replicate_one (n : ℕ) :
    selectLens (List.replicate n 1) (List.range n) = List.replicate n 1 := by
  have h : ∀ i ∈ List.range n, (List.replicate n (1 : ℤ)).getD i 0 = 1 := by
    intro i hi
    have hi2 : i < n := List.mem_range.mp hi
    rw [List.getD_eq_getElem _ _ (by simpa using hi2)]
    simp
  rw [selectLens, List.map_congr_left h, List.map_const', List.length_range]

theorem giap_replicate_big :
    _get_indices_and_probabilities (List.replicate (10 ^ 10) 1)
      (List.range (10 ^ 10)) = ([], []) := by
  have hw : weightsOf (List.replicate (10 ^ 10) 1) (List.range (10 ^ 10)) =
      List.replicate (10 ^ 10) ((1 : ℚ) / 10 ^ 10) := by
    rw [weightsOf, selectLens_replicate_one, List.map_replicate,
      List.sum_replicate]
    norm_num
  have hk : keepIndices (List.replicate (10 ^ 10) 1) (List.range (10 ^ 10)) = [] := by
    rw [keepIndices, hw]
    have hfil : ((List.range (10 ^ 10)).zip
        (List.replicate (10 ^ 10) ((1 : ℚ) / 10 ^ 10))).filter
        (fun p => decide (weightThreshold < p.2)) = [] := by
      rw [List.filter_eq_nil_iff]
      intro p hp
      have h2 := (List.of_mem_zip hp).2
      have hval : p.2 = (1 : ℚ) / 10 ^ 10 := List.eq_of_mem_replicate h2
      simp [weightThreshold, hval]
    rw [hfil]
    rfl
  rw [_get_indices_and_probabilities, List.length_range,
    giapAux_pos_fuel _ _ _ (by norm_num)]
  rw [if_neg (by rw [hk, List.length_range]; norm_num), hk, giapAux_nil]

/-- C1, counterexample: on ten billion unit-length intervals every weight is
exactly 1e-10, so the selector prunes all of them and returns empty lists whose
weights do not sum to 1 even though the total selected length is positive. -/
theorem c1_selector_counterexample :
    0 < (selectLens (List.replicate (10 ^ 10) 1) (List.range (10 ^ 10))).sum ∧
    (∀ i ∈ List.range (10 ^ 10), i < (List.replicate (10 ^ 10) (1 : ℤ)).length) ∧
    _get_indices_and_probabilities (List.replicate (10 ^ 10) 1)
      (List.range (10 ^ 10)) = ([], []) ∧
    ¬ (|(_get_indices_and_probabilities (List.replicate (10 ^ 10) 1)
          (List.range (10 ^ 10))).2.sum - 1| ≤ 1 / 10 ^ 9) := by
  refine ⟨?_, ?_, giap_replicate_big, ?_⟩
  · rw [selectLens_replicate_one, List.sum_replicate, nsmul_eq_mul]
    norm_num
  · intro i hi
    rw [List.length_replicate]
    exact List.mem_range.mp hi
  · rw [giap_replicate_big]
    norm_num

/-- C1 (amended with fewer than 1e10 candidate indices): for every valid index
subset with positive total selected length, the selector returns kept indices
and weights of equal length, the weights sum to 1 (hence to 1 within 1e-9),
every weight strictly exceeds 1e-10, and re-running the selector on its own
kept indices is a fixed point. -/
theorem c1_selector_fixed_point (L : List ℤ) (I : List ℕ)
    (_hvalid : ∀ i ∈ I, i < L.length)
    (hpos : 0 < (selectLens L I).sum)
    (hsize : I.length < 10 ^ 10) :
    (_get_indices_and_probabilities L I).1.length =
        (_get_indices_and_probabilities L I).2.length ∧
    (_get_indices_and_probabilities L I).2.sum = 1 ∧
    |(_get_indices_and_probabilities L I).2.sum - 1| ≤ 1 / 10 ^ 9 ∧
    (∀ w ∈ (_get_indices_and_probabilities L I).2, 1 / 10 ^ 10 < w) ∧
    _get_indices_and_probabilities L (_get_indices_and_probabilities L I).1 =
      _get_indices_and_probabilities L I := by
  obtain ⟨c1, c2, c3, c4, _⟩ := giap_spec L I.length I le_rfl hpos hsize
  refine ⟨c1, c2, ?_, ?_, c4⟩
  · rw [_get_indices_and_probabilities] at *
    rw [c2]
    norm_num
  · intro w hw
    have := c3 w hw
    rwa [weightThreshold] at this

/-- Witness for c1_selector_fixed_point at the one-interval table [5]. -/
theorem c1_selector_fixed_point_witness :
    ((∀ i ∈ ([0] : List ℕ), i < ([5] : List ℤ).length) ∧
      0 < (selectLens [5] [0]).sum ∧ ([0] : List ℕ).length < 10 ^ 10) ∧
    ((_get_indices_and_probabilities [5] [0]).1.length =
        (_get_indices_and_probabilities [5] [0]).2.length ∧
      (_get_indices_and_probabilities [5] [0]).2.sum = 1 ∧
      |(_get_indices_and_probabilities [5] [0]).2.sum - 1| ≤ 1 / 10 ^ 9 ∧
      (∀ w ∈ (_get_indices_and_probabilities [5] [0]).2, 1 / 10 ^ 10 < w) ∧
      _get_indices_and_probabilities [5]
          (_get_indices_and_probabilities [5] [0]).1 =
        _get_indices_and_probabilities [5] [0]) :=
  ⟨⟨by decide, by decide, by norm_num⟩,
    c1_selector_fixed_point [5] [0] (by decide) (by decide) (by norm_num)⟩

/-- C8: on an empty candidate subset the selector returns empty indices and
empty weights, with no recursion and no division failure. -/
theorem c8_empty_subset (L : List ℤ) :
    _get_indices_and_probabilities L [] = ([], []) := rfl

/-! ## Claims about _get_ref_idxs -/

theorem ceil_half_nat (r : ℕ) : ⌈(r : ℚ) / 2⌉ = ((r : ℤ) + 1) / 2 := by
  have h1 : 2 * (((r : ℤ) + 1) / 2) ≤ (r : ℤ) + 1 := by omega
  have h2 : (r : ℤ) ≤ 2 * (((r : ℤ) + 1) / 2) := by omega
  rw [Int.ceil_eq_iff]
  refine ⟨?_, ?_⟩
  · rw [lt_div_iff₀ (by norm_num : (0 : ℚ) < 2)]
    have h1q : 2 * ((((r : ℤ) + 1) / 2 : ℤ) : ℚ) ≤ (r : ℚ) + 1 := by
      exact_mod_cast h1
    linarith
  · rw [div_le_iff₀ (by norm_num : (0 : ℚ) < 2)]
    have h2q : (r : ℚ) ≤ 2 * ((((r : ℤ) + 1) / 2 : ℤ) : ℚ) := by
      exact_mod_cast h2
    linarith

/-- C3: the strand- and length-aware window offsets of _get_ref_idxs: for the
reverse strand with reference length above one the start is mid minus the
ceiling of half the length plus one; for the forward strand with length one it
is mid minus one; for the forward strand with length above one it is mid minus
half the length minus one; the end is always start plus the length. -/
theorem c3_ref_idxs_offsets (mid : ℤ) (refLen : ℕ) (hr : 1 ≤ refLen) :
    (1 < refLen →
      _get_ref_idxs mid '-' refLen =
        (mid - ⌈(refLen : ℚ) / 2⌉ + 1, mid - ⌈(refLen : ℚ) / 2⌉ + 1 + refLen)) ∧
    (refLen = 1 →
      _get_ref_idxs mid '+' refLen = (mid - 1, mid - 1 + refLen)) ∧
    (1 < refLen →
      _get_ref_idxs mid '+' refLen =
        (mid - (refLen : ℤ) / 2 - 1, mid - (refLen : ℤ) / 2 - 1 + refLen)) := by
  refine ⟨fun h => ?_, fun h => ?_, fun h => ?_⟩
  · rw [ceil_half_nat]
    simp [_get_ref_idxs, h]
  · subst h
    simp [_get_ref_idxs]
  · have hne : refLen ≠ 1 := by omega
    simp [_get_ref_idxs, hne]

/-- Witness for c3_ref_idxs_offsets at mid = 10 and a length-3 reference. -/
theorem c3_ref_idxs_offsets_witness :
    (1 ≤ 3) ∧
    ((1 < 3 →
        _get_ref_idxs 10 '-' 3 =
          (10 - ⌈(3 : ℚ) / 2⌉ + 1, 10 - ⌈(3 : ℚ) / 2⌉ + 1 + 3)) ∧
      ((3 : ℕ) = 1 →
        _get_ref_idxs 10 '+' 3 = (10 - 1, 10 - 1 + 3)) ∧
      (1 < 3 →
        _get_ref_idxs 10 '+' 3 =
          (10 - (3 : ℤ) / 2 - 1, 10 - (3 : ℤ) / 2 - 1 + 3))) :=
  ⟨by norm_num, c3_ref_idxs_offsets 10 3 (by norm_num)⟩

/-- C10: for a single-base reference allele the reverse strand falls through
to the default start = mid while the forward strand uses mid - 1, so the
reverse-strand sub-window sits one position to the right of the forward one. -/
theorem c10_single_base_ref_idxs (mid : ℤ) :
    _get_ref_idxs mid '-' 1 = (mid, mid + 1) ∧
    _get_ref_idxs mid '+' 1 = (mid - 1, mid) := by
  constructor
  · simp [_get_ref_idxs]
  · simp [_get_ref_idxs]

/-! ## Claims about _handle_standard_ref -/

theorem _get_ref_idxs_snd (mid : ℤ) (strand : Char) (refLen : ℕ) :
    (_get_ref_idxs mid strand refLen).2 =
      (_get_ref_idxs mid strand refLen).1 + (refLen : ℤ) := rfl

/-- C5: when the in-range sub-window at the computed offset already equals the
declared reference encoding, the reconciler reports a match and returns the
window unchanged; otherwise it reports a mismatch, overwrites exactly that
sub-window with the declared reference, and returns the text observed there
before overwriting. -/
theorem c5_handle_standard_ref {E : Type} [DecidableEq E]
    (refEnc seqEnc : List E) (mid : ℤ) (dec : List E → List Char) (strand : Char)
    (s e : ℤ) (hse : _get_ref_idxs mid strand refEnc.length = (s, e))
    (hs : 0 ≤ s) (he : e ≤ (seqEnc.length : ℤ)) :
    ((seqEnc.drop s.toNat).take refEnc.length = refEnc →
      _handle_standard_ref refEnc seqEnc mid dec strand =
        (true, seqEnc, dec ((seqEnc.drop s.toNat).take refEnc.length))) ∧
    ((seqEnc.drop s.toNat).take refEnc.length ≠ refEnc →
      (_handle_standard_ref refEnc seqEnc mid dec strand).1 = false ∧
      (_handle_standard_ref refEnc seqEnc mid dec strand).2.1.take s.toNat =
        seqEnc.take s.toNat ∧
      (((_handle_standard_ref refEnc seqEnc mid dec strand).2.1.drop
          s.toNat).take refEnc.length) = refEnc ∧
      (_handle_standard_ref refEnc seqEnc mid dec strand).2.1.drop
          (s.toNat + refEnc.length) =
        seqEnc.drop (s.toNat + refEnc.length) ∧
      (_handle_standard_ref refEnc seqEnc mid dec strand).2.1.length =
        seqEnc.length ∧
      (_handle_standard_ref refEnc seqEnc mid dec strand).2.2 =
        dec ((seqEnc.drop s.toNat).take refEnc.length)) := by
  have hsnd := _get_ref_idxs_snd mid strand refEnc.length
  rw [hse] at hsnd
  have hrange : s.toNat + refEnc.length ≤ seqEnc.length := by omega
  have hslen : s.toNat ≤ seqEnc.length := by omega
  constructor
  · intro hmatch
    rw [_handle_standard_ref, hse]
    simp only [hmatch, if_pos]
  · intro hmiss
    have hres : _handle_standard_ref refEnc seqEnc mid dec strand =
        (false,
          seqEnc.take s.toNat ++ refEnc ++ seqEnc.drop (s.toNat + refEnc.length),
          dec ((seqEnc.drop s.toNat).take refEnc.length)) := by
      rw [_handle_standard_ref, hse]
      simp only [hmiss, if_neg, if_false]
    have hpre : (seqEnc.take s.toNat).length = s.toNat := by
      rw [List.length_take]
      omega
    have happ : seqEnc.take s.toNat ++ refEnc ++ seqEnc.drop (s.toNat + refEnc.length) =
        seqEnc.take s.toNat ++ (refEnc ++ seqEnc.drop (s.toNat + refEnc.length)) := by
      rw [List.append_assoc]
    refine ⟨by rw [hres], ?_, ?_, ?_, ?_, by rw [hres]⟩
    · rw [hres]
      simp only [happ]
      rw [List.take_left' hpre]
    · rw [hres]
      simp only [happ]
      rw [List.drop_left' hpre, List.take_left' rfl]
    · rw [hres]
      simp only [happ]
      rw [← List.drop_drop, List.drop_left' hpre, List.drop_left' rfl]
    · rw [hres]
      simp only [List.length_append, List.length_take, List.length_drop]
      omega

/-- Witness for c5_handle_standard_ref on a window of naturals. -/
theorem c5_handle_standard_ref_witness :
    (_get_ref_idxs 1 '+' ([1] : List ℕ).length = (0, 1) ∧ (0 : ℤ) ≤ 0 ∧
      (1 : ℤ) ≤ (([1, 2, 3] : List ℕ).length : ℤ)) ∧
    ((([1, 2, 3] : List ℕ).drop (0 : ℤ).toNat).take ([1] : List ℕ).length = [1] →
      _handle_standard_ref [1] [1, 2, 3] 1 (fun _ => []) '+' =
        (true, [1, 2, 3],
          (fun _ : List ℕ => ([] : List Char))
            ((([1, 2, 3] : List ℕ).drop (0 : ℤ).toNat).take ([1] : List ℕ).length))) :=
  ⟨⟨by decide, by norm_num, by norm_num⟩,
    (c5_handle_standard_ref [1] [1, 2, 3] 1 (fun _ => []) '+' 0 1 (by decide)
      (by norm_num) (by norm_num)).1⟩

/-! ## Claims about _process_alt -/

/-- C4 (amended: the alternate allele is not one of the deletion markers
represented by a single star or dash, which the source normalises to the empty
allele before dispatching): an alternate allele longer than the window is
truncated to the window length; a substitution preserves the window length; an
insertion preserves the window length after truncation; and a no-op variant
whose reference text is actually present at the computed offset encodes to the
unmodified window encoding. -/
theorem c4_process_alt {E : Type} (enc : List Char → E) (pos : ℤ)
    (ref alt : List Char) (startC endC : ℤ) (strand : Char) (wt : List Char)
    (startRadius : ℤ) (getSeq : ℤ → ℤ → List Char)
    (halt1 : alt ≠ ['*']) (halt2 : alt ≠ ['-'])
    (s e : ℤ) (hse : _get_ref_idxs startRadius strand ref.length = (s, e))
    (hs : 0 ≤ s) (he : e ≤ (wt.length : ℤ)) :
    (wt.length < alt.length →
      _process_alt_seq pos ref alt startC endC strand wt startRadius getSeq =
        alt.take wt.length) ∧
    (ref.length = alt.length →
      (_process_alt_seq pos ref alt startC endC strand wt startRadius
          getSeq).length = wt.length) ∧
    (ref.length < alt.length →
      (_process_alt_seq pos ref alt startC endC strand wt startRadius
          getSeq).length = wt.length) ∧
    (alt = ref → (wt.drop s.toNat).take ref.length = ref →
      _process_alt enc pos ref alt startC endC strand wt startRadius getSeq =
        enc wt) := by
  have hcond : ¬ (alt = ['*'] ∨ alt = ['-']) := by simp [halt1, halt2]
  have hsnd := _get_ref_idxs_snd startRadius strand ref.length
  rw [hse] at hsnd
  refine ⟨fun h => ?_, fun heq => ?_, fun hlt => ?_, fun hae hcont => ?_⟩
  · rw [_process_alt_seq, if_neg hcond, if_pos h]
    rfl
  · by_cases hbig : wt.length < alt.length
    · rw [_process_alt_seq, if_neg hcond, if_pos hbig, _truncate_sequence]
      rw [List.length_take]
      omega
    · rw [_process_alt_seq, if_neg hcond, if_neg hbig, if_pos heq, hse]
      simp only [List.length_append, List.length_take, List.length_drop]
      omega
  · by_cases hbig : wt.length < alt.length
    · rw [_process_alt_seq, if_neg hcond, if_pos hbig, _truncate_sequence]
      rw [List.length_take]
      omega
    · have hne : ref.length ≠ alt.length := by omega
      rw [_process_alt_seq, if_neg hcond, if_neg hbig, if_neg hne, if_pos hlt,
        hse, _truncate_sequence]
      simp only [List.length_take, List.length_append, List.length_drop]
      omega
  · subst hae
    have hbig : ¬ (wt.length < alt.length) := by omega
    have htoe : e.toNat = s.toNat + alt.length := by omega
    have htext : _process_alt_seq pos alt alt startC endC strand wt startRadius
        getSeq = wt := by
      rw [_process_alt_seq, if_neg hcond, if_neg hbig, if_pos rfl, hse]
      simp only [htoe]
      have hdrop : wt.drop s.toNat =
          alt ++ wt.drop (s.toNat + alt.length) := by
        conv_lhs => rw [← List.take_append_drop alt.length (wt.drop s.toNat)]
        rw [hcont, List.drop_drop]
      calc wt.take s.toNat ++ alt ++ wt.drop (s.toNat + alt.length)
          = wt.take s.toNat ++ (alt ++ wt.drop (s.toNat + alt.length)) := by
            rw [List.append_assoc]
        _ = wt.take s.toNat ++ wt.drop s.toNat := by rw [← hdrop]
        _ = wt := List.take_append_drop s.toNat wt
    rw [_process_alt, htext]

/-- C4 counterexample: the variant ref "A", alt "-" has equal-length reference
and alternate strings with in-range offsets, yet the source normalises the
dash to an empty allele and runs the deletion branch, so the reconstructed
text (flank-allele-flank from the genome) has length 4 instead of the window
length 3, and the claimed substitution length preservation fails. -/
theorem c4_process_alt_counterexample :
    (['A'] : List Char).length = (['-'] : List Char).length ∧
    _get_ref_idxs 1 '+' (['A'] : List Char).length = (0, 1) ∧
    (0 : ℤ) ≤ 0 ∧ (1 : ℤ) ≤ ((['C', 'A', 'T'] : List Char).length : ℤ) ∧
    (_process_alt_seq 0 ['A'] ['-'] 0 0 '+' ['C', 'A', 'T'] 1
        (fun _ _ => ['G', 'G'])).length ≠
      (['C', 'A', 'T'] : List Char).length := by
  refine ⟨rfl, by decide, le_refl 0, by norm_num, by decide⟩

/-- Witness for c4_process_alt: the no-op substitution CG to CG inside the
window CGTAA leaves the window encoding unchanged. -/
theorem c4_process_alt_witness :
    ((['C', 'G'] : List Char) ≠ ['*'] ∧ (['C', 'G'] : List Char) ≠ ['-'] ∧
      _get_ref_idxs 2 '+' (['C', 'G'] : List Char).length = (0, 2) ∧
      (0 : ℤ) ≤ 0 ∧
      (2 : ℤ) ≤ ((['C', 'G', 'T', 'A', 'A'] : List Char).length : ℤ)) ∧
    (_process_alt_seq 0 ['C', 'G'] ['C', 'G'] 0 0 '+' ['C', 'G', 'T', 'A', 'A']
        2 (fun _ _ => [])).length =
      (['C', 'G', 'T', 'A', 'A'] : List Char).length ∧
    _process_alt (fun x => x) 0 ['C', 'G'] ['C', 'G'] 0 0 '+'
        ['C', 'G', 'T', 'A', 'A'] 2 (fun _ _ => []) =
      (fun x : List Char => x) ['C', 'G', 'T', 'A', 'A'] :=
  ⟨⟨by decide, by decide, by decide, le_refl 0, by norm_num⟩,
    (c4_process_alt (fun x => x) 0 ['C', 'G'] ['C', 'G'] 0 0 '+'
        ['C', 'G', 'T', 'A', 'A'] 2 (fun _ _ => []) (by decide) (by decide) 0 2
        (by decide) (le_refl 0) (by norm_num)).2.1 rfl,
    (c4_process_alt (fun x => x) 0 ['C', 'G'] ['C', 'G'] 0 0 '+'
        ['C', 'G', 'T', 'A', 'A'] 2 (fun _ _ => []) (by decide) (by decide) 0 2
        (by decide) (le_refl 0) (by norm_num)).2.2.2 rfl (by decide)⟩

/-! ## Claims about _partition_dataset_proportion -/

theorem giap_fst_subset (L : List ℤ) (fuel : ℕ) :
    ∀ I, ∀ i ∈ (giapAux L fuel I).1, i ∈ I := by
  induction fuel with
  | zero => intro I i hi; exact hi
  | succ fuel ih =>
    intro I i hi
    by_cases hk : (keepIndices L I).length = I.length
    · rw [giapAux, if_pos hk] at hi
      exact hi
    · rw [giapAux, if_neg hk] at hi
      exact keepIndices_subset L I i (ih (keepIndices L I) i hi)

theorem giap_fst_length_le (L : List ℤ) (fuel : ℕ) :
    ∀ I, (giapAux L fuel I).1.length ≤ I.length := by
  induction fuel with
  | zero => intro I; exact le_refl _
  | succ fuel ih =>
    intro I
    by_cases hk : (keepIndices L I).length = I.length
    · rw [giapAux, if_pos hk]
    · rw [giapAux, if_neg hk]
      exact le_trans (ih (keepIndices L I)) (keepIndices_length_le L I)

theorem giap_no_prune (L : List ℤ) (I : List ℕ)
    (h : (keepIndices L I).length = I.length) :
    _get_indices_and_probabilities L I = (I, weightsOf L I) := by
  cases I with
  | nil => rfl
  | cons a t =>
    rw [_get_indices_and_probabilities, List.length_cons, giapAux, if_pos h]

/-- C2 counterexample: four intervals of lengths 7, 1, 100000000000 and 9,
fractions one quarter each.  The training slice holds the unit interval next
to the hundred-billion one; its weight falls below 1e-10 and is pruned, so the
stored partitions have sizes 1, 1, 1 whose sum is 3, not N = 4 (the partitions
stay pairwise disjoint). -/
theorem c2_partition_counterexample :
    ([0, 3, 1, 2] : List ℕ).Perm
      (List.range ([7, 1, 100000000000, 9] : List ℤ).length) ∧
    (0 : ℚ) ≤ 1 / 4 ∧ (0 : ℚ) < 1 / 4 ∧ (1 : ℚ) / 4 + 1 / 4 ≤ 1 ∧
    (_partition_dataset_proportion [7, 1, 100000000000, 9] [0, 3, 1, 2]
        (1 / 4) (1 / 4)).validate.1 = [0] ∧
    (_partition_dataset_proportion [7, 1, 100000000000, 9] [0, 3, 1, 2]
        (1 / 4) (1 / 4)).test =
      some (_get_indices_and_probabilities [7, 1, 100000000000, 9]
        (propTestCand [0, 3, 1, 2] 4 (1 / 4) (1 / 4))) ∧
    (_get_indices_and_probabilities [7, 1, 100000000000, 9]
        (propTestCand [0, 3, 1, 2] 4 (1 / 4) (1 / 4))).1 = [3] ∧
    (_partition_dataset_proportion [7, 1, 100000000000, 9] [0, 3, 1, 2]
        (1 / 4) (1 / 4)).train.1 = [2] ∧
    1 + 1 + 1 ≠ ([7, 1, 100000000000, 9] : List ℤ).length := by
  have hv : nHoldout 4 (1 / 4) = 1 := by
    rw [nHoldout]
    norm_num
  have hmodel : _partition_dataset_proportion [7, 1, 100000000000, 9]
      [0, 3, 1, 2] (1 / 4) (1 / 4) =
      { validate := _get_indices_and_probabilities [7, 1, 100000000000, 9]
          (propValCand [0, 3, 1, 2] 4 (1 / 4))
        test := some (_get_indices_and_probabilities [7, 1, 100000000000, 9]
          (propTestCand [0, 3, 1, 2] 4 (1 / 4) (1 / 4)))
        train := _get_indices_and_probabilities [7, 1, 100000000000, 9]
          (propTrainCand [0, 3, 1, 2] 4 (1 / 4) (1 / 4)) } := by
    rw [_partition_dataset_proportion, if_pos (by norm_num : (1 / 4 : ℚ) ≠ 0)]
    rfl
  have hvalc : propValCand [0, 3, 1, 2] 4 (1 / 4) = [0] := by
    rw [propValCand, hv]
    rfl
  have htestc : propTestCand [0, 3, 1, 2] 4 (1 / 4) (1 / 4) = [3] := by
    rw [propTestCand, hv]
    rfl
  have htrainc : propTrainCand [0, 3, 1, 2] 4 (1 / 4) (1 / 4) = [1, 2] := by
    rw [propTrainCand, hv]
    rfl
  have hkeep0 : keepIndices [7, 1, 100000000000, 9] [0] = [0] := by
    norm_num [keepIndices, weightsOf, selectLens, weightThreshold]
  have hkeep3 : keepIndices [7, 1, 100000000000, 9] [3] = [3] := by
    norm_num [keepIndices, weightsOf, selectLens, weightThreshold]
  have hkeep2 : keepIndices [7, 1, 100000000000, 9] [2] = [2] := by
    norm_num [keepIndices, weightsOf, selectLens, weightThreshold]
  have hkeep12 : keepIndices [7, 1, 100000000000, 9] [1, 2] = [2] := by
    norm_num [keepIndices, weightsOf, selectLens, weightThreshold]
  have htrain : _get_indices_and_probabilities [7, 1, 100000000000, 9] [1, 2] =
      ([2], weightsOf [7, 1, 100000000000, 9] [2]) := by
    rw [_get_indices_and_probabilities]
    rw [show ([1, 2] : List ℕ).length = 2 from rfl,
      giapAux_pos_fuel _ _ _ (by norm_num),
      if_neg (by rw [hkeep12]; norm_num), hkeep12,
      show (2 - 1 : ℕ) = 1 from rfl,
      giapAux_pos_fuel _ _ _ (by norm_num), if_pos (by rw [hkeep2])]
  refine ⟨by decide, by norm_num, by norm_num, by norm_num, ?_, ?_, ?_, ?_, by decide⟩
  · rw [hmodel, hvalc, giap_no_prune _ _ (by rw [hkeep0])]
  · rw [hmodel]
  · rw [htestc, giap_no_prune _ _ (by rw [hkeep3])]
  · rw [hmodel, htrainc, htrain]

/-- C2 (amended: the three stored partitions are always pairwise disjoint and
their sizes sum to at most N; the sum equals N exactly when the weighted
selector prunes no index from any of the three candidate slices, which can
fail, for example, for zero-length or negligibly short intervals). -/
theorem c2_partition_invariant (L : List ℤ) (S : List ℕ) (v t : ℚ)
    (hperm : S.Perm (List.range L.length))
    (hN : 1 ≤ L.length) (hv : 0 ≤ v) (ht : 0 < t) (hvt : v + t ≤ 1) :
    (_partition_dataset_proportion L S v t).test =
      some (_get_indices_and_probabilities L (propTestCand S L.length v t)) ∧
    (∀ x ∈ (_partition_dataset_proportion L S v t).validate.1,
      x ∉ (_get_indices_and_probabilities L (propTestCand S L.length v t)).1) ∧
    (∀ x ∈ (_partition_dataset_proportion L S v t).validate.1,
      x ∉ (_partition_dataset_proportion L S v t).train.1) ∧
    (∀ x ∈ (_get_indices_and_probabilities L (propTestCand S L.length v t)).1,
      x ∉ (_partition_dataset_proportion L S v t).train.1) ∧
    ((_partition_dataset_proportion L S v t).validate.1.length +
      (_get_indices_and_probabilities L (propTestCand S L.length v t)).1.length +
      (_partition_dataset_proportion L S v t).train.1.length ≤ L.length) ∧
    ((keepIndices L (propValCand S L.length v)).length =
        (propValCand S L.length v).length →
      (keepIndices L (propTestCand S L.length v t)).length =
        (propTestCand S L.length v t).length →
      (keepIndices L (propTrainCand S L.length v t)).length =
        (propTrainCand S L.length v t).length →
      (_partition_dataset_proportion L S v t).validate.1.length +
        (_get_indices_and_probabilities L (propTestCand S L.length v t)).1.length +
        (_partition_dataset_proportion L S v t).train.1.length = L.length) := by
  have ht0 : t ≠ 0 := ne_of_gt ht
  have hmodel : _partition_dataset_proportion L S v t =
      { validate := _get_indices_and_probabilities L (propValCand S L.length v)
        test := some (_get_indices_and_probabilities L
          (propTestCand S L.length v t))
        train := _get_indices_and_probabilities L
          (propTrainCand S L.length v t) } := by
    rw [_partition_dataset_proportion, if_pos ht0]
  have hval : (_partition_dataset_proportion L S v t).validate =
      _get_indices_and_probabilities L (propValCand S L.length v) := by
    rw [hmodel]
  have htraineq : (_partition_dataset_proportion L S v t).train =
      _get_indices_and_probabilities L (propTrainCand S L.length v t) := by
    rw [hmodel]
  have hSlen : S.length = L.length := by
    rw [hperm.length_eq, List.length_range]
  have hnodup : S.Nodup := (hperm.nodup_iff).mpr (List.nodup_range _)
  have hfv : (nHoldout L.length v : ℤ) = ⌊(L.length : ℚ) * v⌋ :=
    Int.toNat_of_nonneg (Int.floor_nonneg.mpr (mul_nonneg (by positivity) hv))
  have hft : (nHoldout L.length t : ℤ) = ⌊(L.length : ℚ) * t⌋ :=
    Int.toNat_of_nonneg (Int.floor_nonneg.mpr (mul_nonneg (by positivity) ht.le))
  have hsumZ : (⌊(L.length : ℚ) * v⌋ + ⌊(L.length : ℚ) * t⌋ : ℤ) ≤ L.length := by
    have h1 : ((⌊(L.length : ℚ) * v⌋ + ⌊(L.length : ℚ) * t⌋ : ℤ) : ℚ) ≤
        (L.length : ℚ) * v + (L.length : ℚ) * t := by
      push_cast
      have hf1 := Int.floor_le ((L.length : ℚ) * v)
      have hf2 := Int.floor_le ((L.length : ℚ) * t)
      linarith
    have h2 : (L.length : ℚ) * (v + t) ≤ (L.length : ℚ) * 1 :=
      mul_le_mul_of_nonneg_left hvt (by positivity)
    have h3 : (L.length : ℚ) * v + (L.length : ℚ) * t ≤ (L.length : ℚ) := by
      nlinarith
    exact_mod_cast le_trans h1 h3
  have hab : nHoldout L.length v + nHoldout L.length t ≤ L.length := by omega
  have hdis1 : List.Disjoint (S.take (nHoldout L.length v))
      (S.drop (nHoldout L.length v)) :=
    (List.nodup_append.mp (by rw [List.take_append_drop]; exact hnodup)).2.2
  have hnd2 : (S.drop (nHoldout L.length v)).Nodup :=
    List.Nodup.sublist (List.drop_sublist _ S) hnodup
  have hdis2 : List.Disjoint
      ((S.drop (nHoldout L.length v)).take (nHoldout L.length t))
      ((S.drop (nHoldout L.length v)).drop (nHoldout L.length t)) :=
    (List.nodup_append.mp (by rw [List.take_append_drop]; exact hnd2)).2.2
  have hsub : ∀ c : List ℕ, ∀ x ∈ (_get_indices_and_probabilities L c).1, x ∈ c :=
    fun c => giap_fst_subset L c.length c
  have hlenle : ∀ c : List ℕ,
      (_get_indices_and_probabilities L c).1.length ≤ c.length :=
    fun c => giap_fst_length_le L c.length c
  have htrdrop : propTrainCand S L.length v t =
      (S.drop (nHoldout L.length v)).drop (nHoldout L.length t) := by
    rw [propTrainCand, List.drop_drop]
  refine ⟨by rw [hmodel], ?_, ?_, ?_, ?_, ?_⟩
  · intro x hxv hxt
    have h1 : x ∈ S.take (nHoldout L.length v) := by
      have := hsub _ x (by rw [← hval]; exact hxv)
      rwa [propValCand] at this
    have h2 : x ∈ S.drop (nHoldout L.length v) := by
      have := hsub _ x hxt
      rw [propTestCand] at this
      exact (List.take_sublist _ _).subset this
    exact hdis1 h1 h2
  · intro x hxv hxr
    have h1 : x ∈ S.take (nHoldout L.length v) := by
      have := hsub _ x (by rw [← hval]; exact hxv)
      rwa [propValCand] at this
    have h2 : x ∈ S.drop (nHoldout L.length v) := by
      have := hsub _ x (by rw [← htraineq]; exact hxr)
      rw [htrdrop] at this
      exact (List.drop_sublist _ _).subset this
    exact hdis1 h1 h2
  · intro x hxt hxr
    have h1 : x ∈ (S.drop (nHoldout L.length v)).take (nHoldout L.length t) := by
      have := hsub _ x hxt
      rwa [propTestCand] at this
    have h2 : x ∈ (S.drop (nHoldout L.length v)).drop (nHoldout L.length t) := by
      have := hsub _ x (by rw [← htraineq]; exact hxr)
      rwa [htrdrop] at this
    exact hdis2 h1 h2
  · have l1 := hlenle (propValCand S L.length v)
    have l2 := hlenle (propTestCand S L.length v t)
    have l3 := hlenle (propTrainCand S L.length v t)
    have c1 : (propValCand S L.length v).length =
        min (nHoldout L.length v) S.length := by
      rw [propValCand, List.length_take]
    have c2 : (propTestCand S L.length v t).length =
        min (nHoldout L.length t) (S.length - nHoldout L.length v) := by
      rw [propTestCand, List.length_take, List.length_drop]
    have c3 : (propTrainCand S L.length v t).length =
        S.length - (nHoldout L.length v + nHoldout L.length t) := by
      rw [propTrainCand, List.length_drop]
    rw [hval, htraineq]
    omega
  · intro hp1 hp2 hp3
    rw [hval, htraineq, giap_no_prune _ _ hp1, giap_no_prune _ _ hp2,
      giap_no_prune _ _ hp3]
    simp only [propValCand, propTestCand, propTrainCand, List.length_take,
      List.length_drop]
    omega

/-- Witness for c2_partition_invariant: four intervals of lengths 5, 6, 7, 8
under quarter fractions, identity shuffle; nothing is pruned and the stored
partition sizes 1 + 1 + 2 sum to N = 4. -/
theorem c2_partition_invariant_witness :
    (([0, 1, 2, 3] : List ℕ).Perm
        (List.range ([5, 6, 7, 8] : List ℤ).length) ∧
      1 ≤ ([5, 6, 7, 8] : List ℤ).length ∧ (0 : ℚ) ≤ 1 / 4 ∧
      (0 : ℚ) < 1 / 4 ∧ (1 : ℚ) / 4 + 1 / 4 ≤ 1) ∧
    (_partition_dataset_proportion [5, 6, 7, 8] [0, 1, 2, 3]
        (1 / 4) (1 / 4)).test =
      some (_get_indices_and_probabilities [5, 6, 7, 8]
        (propTestCand [0, 1, 2, 3] ([5, 6, 7, 8] : List ℤ).length
          (1 / 4) (1 / 4))) ∧
    (∀ x ∈ (_partition_dataset_proportion [5, 6, 7, 8] [0, 1, 2, 3]
        (1 / 4) (1 / 4)).validate.1,
      x ∉ (_get_indices_and_probabilities [5, 6, 7, 8]
        (propTestCand [0, 1, 2, 3] ([5, 6, 7, 8] : List ℤ).length
          (1 / 4) (1 / 4))).1) ∧
    (_partition_dataset_proportion [5, 6, 7, 8] [0, 1, 2, 3]
        (1 / 4) (1 / 4)).validate.1.length +
      (_get_indices_and_probabilities [5, 6, 7, 8]
        (propTestCand [0, 1, 2, 3] ([5, 6, 7, 8] : List ℤ).length
          (1 / 4) (1 / 4))).1.length +
      (_partition_dataset_proportion [5, 6, 7, 8] [0, 1, 2, 3]
        (1 / 4) (1 / 4)).train.1.length = ([5, 6, 7, 8] : List ℤ).length := by
  have h := c2_partition_invariant [5, 6, 7, 8] [0, 1, 2, 3] (1 / 4) (1 / 4)
    (by decide) (by decide) (by norm_num) (by norm_num) (by norm_num)
  have hn4 : ([5, 6, 7, 8] : List ℤ).length = 4 := rfl
  have hv4 : nHoldout 4 (1 / 4) = 1 := by
    rw [nHoldout]
    norm_num
  have hc1 : propValCand [0, 1, 2, 3] ([5, 6, 7, 8] : List ℤ).length (1 / 4) =
      [0] := by
    rw [propValCand, hn4, hv4]
    rfl
  have hc2 : propTestCand [0, 1, 2, 3] ([5, 6, 7, 8] : List ℤ).length
      (1 / 4) (1 / 4) = [1] := by
    rw [propTestCand, hn4, hv4]
    rfl
  have hc3 : propTrainCand [0, 1, 2, 3] ([5, 6, 7, 8] : List ℤ).length
      (1 / 4) (1 / 4) = [2, 3] := by
    rw [propTrainCand, hn4, hv4]
    rfl
  have hk0 : keepIndices [5, 6, 7, 8] [0] = [0] := by
    norm_num [keepIndices, weightsOf, selectLens, weightThreshold]
  have hk1 : keepIndices [5, 6, 7, 8] [1] = [1] := by
    norm_num [keepIndices, weightsOf, selectLens, weightThreshold]
  have hk23 : keepIndices [5, 6, 7, 8] [2, 3] = [2, 3] := by
    norm_num [keepIndices, weightsOf, selectLens, weightThreshold]
  refine ⟨⟨by decide, by decide, by norm_num, by norm_num, by norm_num⟩,
    h.1, h.2.1, ?_⟩
  exact h.2.2.2.2.2 (by rw [hc1, hk0]) (by rw [hc2, hk1]) (by rw [hc3, hk23])

/-! ## Claims about the random draw cache -/

theorem pickIndex_lt (w : List ℚ) :
    ∀ r : ℚ, 0 ≤ r → r < w.sum → pickIndex w r < w.length := by
  induction w with
  | nil =>
    intro r h0 hr
    rw [List.sum_nil] at hr
    linarith
  | cons a ws ih =>
    intro r h0 hr
    rw [pickIndex]
    by_cases hra : r < a
    · rw [if_pos hra]
      simp
    · rw [if_neg hra]
      push_neg at hra
      rw [List.sum_cons] at hr
      have h2 := ih (r - a) (by linarith) (by linarith)
      rw [List.length_cons]
      omega

theorem npChoice_mem (l : List ℕ) (p : List ℚ) (rng : ℕ → ℚ) (n : ℕ)
    (hne : l ≠ []) (hlen : p.length = l.length) (hsum : p.sum = 1)
    (hnn : ∀ x ∈ p, 0 ≤ x) (hrng : ∀ k, 0 ≤ rng k ∧ rng k < 1) :
    npChoice l p rng n =
      some ((List.range n).map (fun k => l.getD (pickIndex p (rng k)) 0)) ∧
    ∀ v ∈ (List.range n).map (fun k => l.getD (pickIndex p (rng k)) 0), v ∈ l := by
  constructor
  · have hcond : ¬ (l = [] ∨ p.length ≠ l.length ∨ p.sum ≠ 1 ∨
        ¬ (∀ x ∈ p, 0 ≤ x)) := by
      push_neg
      exact ⟨hne, hlen, hsum, hnn⟩
    rw [npChoice, if_neg hcond]
  · intro v hv
    obtain ⟨k, _, rfl⟩ := List.mem_map.mp hv
    have hp : pickIndex p (rng k) < l.length := by
      rw [← hlen]
      exact pickIndex_lt p (rng k) (hrng k).1 (by rw [hsum]; exact (hrng k).2)
    rw [List.getD_eq_getElem _ _ hp]
    exact List.getElem_mem hp

theorem readN_ok (si : List ℕ × List ℚ) (rng : ℕ → ℚ) :
    ∀ (k : ℕ) (rc : RandCache),
      rc.cache_indices.length = si.1.length →
      (∀ v ∈ rc.cache_indices, v ∈ si.1) →
      rc.sample_next + k ≤ si.1.length →
      ∃ out rcF, readN si rng rc k = some (out, rcF) ∧
        out.length = k ∧ ∀ v ∈ out, v ∈ si.1 := by
  intro k
  induction k with
  | zero =>
    intro rc _ _ _
    exact ⟨[], rc, rfl, rfl, by simp⟩
  | succ k ih =>
    intro rc h1 h2 h3
    have hne : rc.sample_next ≠ si.1.length := by omega
    have hlt : rc.sample_next < rc.cache_indices.length := by omega
    have hget : rc.cache_indices[rc.sample_next]? =
        some rc.cache_indices[rc.sample_next] :=
      List.getElem?_eq_getElem hlt
    obtain ⟨out, rcF, hrec, hlen2, hmem2⟩ :=
      ih { rc with sample_next := rc.sample_next + 1 } h1 h2
        (show rc.sample_next + 1 + k ≤ si.1.length by omega)
    refine ⟨rc.cache_indices[rc.sample_next] :: out, rcF, ?_, by
      rw [List.length_cons, hlen2], ?_⟩
    · rw [readN, sampleNextIndex, if_neg hne, hget]
      simp only [Option.map_some']
      rw [hrec]
      rfl
    · intro v hv
      rcases List.mem_cons.mp hv with rfl | hvout
      · exact h2 _ (List.getElem_mem hlt)
      · exact hmem2 v hvout

/-- C6: for a nonempty partition with a valid weight vector, a refill followed
by N next-index reads never fails, resets the cursor to 0, fills the cache
with exactly N indices, and every index read is a member of the partition's
index set. -/
theorem c6_refill_then_reads (si : List ℕ × List ℚ) (rng : ℕ → ℚ)
    (hne : si.1 ≠ []) (hw : validWeights si)
    (hrng : ∀ k, 0 ≤ rng k ∧ rng k < 1) :
    ∃ rc0, _update_randcache si rng = some rc0 ∧ rc0.sample_next = 0 ∧
      rc0.cache_indices.length = si.1.length ∧
      (∀ v ∈ rc0.cache_indices, v ∈ si.1) ∧
      ∃ out rcF, readN si rng rc0 si.1.length = some (out, rcF) ∧
        out.length = si.1.length ∧ ∀ v ∈ out, v ∈ si.1 := by
  obtain ⟨hw1, hw2, hw3⟩ := hw
  obtain ⟨hch, hmem⟩ := npChoice_mem si.1 si.2 rng si.1.length hne hw1 hw2 hw3 hrng
  refine ⟨⟨(List.range si.1.length).map
      (fun k => si.1.getD (pickIndex si.2 (rng k)) 0), 0⟩, ?_, rfl, ?_, hmem, ?_⟩
  · rw [_update_randcache, hch]
    rfl
  · rw [List.length_map, List.length_range]
  · exact readN_ok si rng si.1.length _
      (by rw [List.length_map, List.length_range]) hmem
      (show 0 + si.1.length ≤ si.1.length by omega)

/-- Witness for c6_refill_then_reads on the one-index partition ([3], [1]). -/
theorem c6_refill_then_reads_witness :
    ((([3], [1]) : List ℕ × List ℚ).1 ≠ [] ∧
      validWeights (([3], [1]) : List ℕ × List ℚ) ∧
      (∀ k : ℕ, 0 ≤ (fun _ : ℕ => (0 : ℚ)) k ∧ (fun _ : ℕ => (0 : ℚ)) k < 1)) ∧
    (∃ rc0, _update_randcache (([3], [1]) : List ℕ × List ℚ) (fun _ => 0) =
        some rc0 ∧ rc0.sample_next = 0 ∧
      rc0.cache_indices.length = (([3], [1]) : List ℕ × List ℚ).1.length ∧
      (∀ v ∈ rc0.cache_indices, v ∈ (([3], [1]) : List ℕ × List ℚ).1) ∧
      ∃ out rcF, readN (([3], [1]) : List ℕ × List ℚ) (fun _ => 0) rc0
          (([3], [1]) : List ℕ × List ℚ).1.length = some (out, rcF) ∧
        out.length = (([3], [1]) : List ℕ × List ℚ).1.length ∧
        ∀ v ∈ out, v ∈ (([3], [1]) : List ℕ × List ℚ).1) :=
  ⟨⟨by decide, ⟨rfl, by norm_num, by
      intro x hx
      rw [List.mem_singleton] at hx
      rw [hx]
      norm_num⟩,
    fun _ => ⟨le_refl 0, by norm_num⟩⟩,
    c6_refill_then_reads ([3], [1]) (fun _ => 0) (by decide)
      ⟨rfl, by norm_num, by
        intro x hx
        rw [List.mem_singleton] at hx
        rw [hx]
        norm_num⟩
      (fun _ => ⟨le_refl 0, by norm_num⟩)⟩

/-! ## Claim about randcache initialisation at construction -/

/-- C9: IntervalsSampler construction refills the cache of every mode, so an
empty partition index list in any mode (sampled later or not) makes the
weighted draw fail during construction itself. -/
theorem c9_init_empty_mode_raises (sfm : Mode → List ℕ × List ℚ)
    (rng : ℕ → ℚ) (m : Mode) (h : (sfm m).1 = []) :
    initRandcaches sfm rng = none := by
  have hnone : _update_randcache (sfm m) rng = none := by
    rw [_update_randcache, npChoice, if_pos (Or.inl h)]
    rfl
  rw [initRandcaches]
  cases m with
  | train =>
    rw [hnone]
  | validate =>
    rw [hnone]
    cases _update_randcache (sfm .train) rng <;>
      cases _update_randcache (sfm .test) rng <;> rfl
  | test =>
    rw [hnone]
    cases _update_randcache (sfm .train) rng <;>
      cases _update_randcache (sfm .validate) rng <;> rfl

/-- Witness for c9_init_empty_mode_raises with all partitions empty. -/
theorem c9_init_empty_mode_raises_witness :
    ((fun _ : Mode => (([], []) : List ℕ × List ℚ)) Mode.train).1 = [] ∧
    initRandcaches (fun _ => ([], [])) (fun _ => 0) = none :=
  ⟨rfl, c9_init_empty_mode_raises (fun _ => ([], [])) (fun _ => 0) Mode.train rfl⟩

/-! ## Claims about read_vcf_file -/

theorem hasPre_mem {c : Char} :
    ∀ s pat : List Char, hasPre s pat = true → c ∈ pat → c ∈ s := by
  intro s
  induction s with
  | nil =>
    intro pat h hc
    cases pat with
    | nil => exact absurd hc (List.not_mem_nil c)
    | cons b t =>
      rw [hasPre] at h
      exact absurd h (by norm_num)
  | cons a s ih =>
    intro pat h hc
    cases pat with
    | nil => exact absurd hc (List.not_mem_nil c)
    | cons b t =>
      rw [hasPre, Bool.and_eq_true] at h
      obtain ⟨hab, hrest⟩ := h
      have hab2 : a = b := of_decide_eq_true hab
      rcases List.mem_cons.mp hc with hcb | hct
      · rw [hcb, ← hab2]
        exact List.mem_cons_self a s
      · exact List.mem_cons_of_mem a (ih t hrest hct)

theorem hasSub_mem {c : Char} :
    ∀ s pat : List Char, hasSub s pat = true → c ∈ pat → c ∈ s := by
  intro s
  induction s with
  | nil =>
    intro pat h hc
    rw [hasSub] at h
    cases pat with
    | nil => exact absurd hc (List.not_mem_nil c)
    | cons b t =>
      rw [hasPre] at h
      exact absurd h (by norm_num)
  | cons a s ih =>
    intro pat h hc
    rw [hasSub, Bool.or_eq_true] at h
    rcases h with h | h
    · exact hasPre_mem _ _ h hc
    · exact List.mem_cons_of_mem a (ih pat h hc)

theorem headerScan_error :
    ∀ (pre : List String) (hline : String) (rest : List String) (i : ℕ),
      (∀ l ∈ pre, '#' ∈ l.toList ∧ hasSub l.toList "#CHROM".toList = false) →
      hasSub hline.toList "#CHROM".toList = true →
      (splitOnChar '\t' (pyStrip hline.toList)).take 5 ≠ vcfRequiredCols →
      headerScan (pre ++ hline :: rest) i =
        .error "unexpected VCF header columns" := by
  intro pre
  induction pre with
  | nil =>
    intro hline rest i _ hsub hcols
    have hhash : hline.toList.contains '#' = true :=
      List.elem_iff.mpr (hasSub_mem _ _ hsub (by decide))
    cases rest with
    | nil =>
      rw [List.nil_append, headerScan, if_neg (by rw [hhash]; decide),
        if_pos hsub, if_pos hcols]
    | cons r rs =>
      rw [List.nil_append, headerScan, if_neg (by rw [hhash]; decide),
        if_pos hsub, if_pos hcols]
      simp
  | cons l pre ih =>
    intro hline rest i hpre hsub hcols
    obtain ⟨x, xs, hx⟩ : ∃ x xs, pre ++ hline :: rest = x :: xs := by
      cases hp : pre ++ hline :: rest with
      | nil => exact absurd hp (by simp)
      | cons x xs => exact ⟨x, xs, rfl⟩
    have hl := hpre l (List.mem_cons_self l pre)
    have hlc : l.toList.contains '#' = true := List.elem_iff.mpr hl.1
    rw [List.cons_append, hx, headerScan, if_neg (by rw [hlc]; decide),
      if_neg (by rw [hl.2]; decide), ← hx]
    · exact ih hline rest (i + 1)
        (fun y hy => hpre y (List.mem_cons_of_mem l hy)) hsub hcols
    · simp

theorem parseDataLine_eval_none (line : List Char)
    (c0 c1 c2 c3 c4 : List Char) (cr : List (List Char)) (p : ℤ)
    (hcols : splitOnChar '\t' (pyStrip line) = c0 :: c1 :: c2 :: c3 :: c4 :: cr)
    (hp : parseInt? c1 = some p) :
    parseDataLine none line =
      Except.ok ((splitOnChar ',' c4).map (fun a =>
        { chrom := c0, pos := p, name := c2,
          ref := if c3 = ['-'] then [] else c3, alt := a, strand := '.' })) := by
  rw [parseDataLine, hcols, if_neg (by simp only [List.length_cons]; omega)]
  simp only [List.getD_cons_succ, List.getD_cons_zero]
  rw [hp]

theorem parseDataLine_eval_some (k : ℕ) (line : List Char)
    (c0 c1 c2 c3 c4 : List Char) (cr : List (List Char)) (p : ℤ) (sv : List Char)
    (hcols : splitOnChar '\t' (pyStrip line) = c0 :: c1 :: c2 :: c3 :: c4 :: cr)
    (hp : parseInt? c1 = some p)
    (hsv : (c0 :: c1 :: c2 :: c3 :: c4 :: cr)[k]? = some sv) :
    parseDataLine (some k) line =
      (if sv = ['-'] then
        Except.ok ((splitOnChar ',' c4).map (fun a =>
          { chrom := c0, pos := p, name := c2,
            ref := if c3 = ['-'] then [] else c3, alt := a, strand := '-' }))
      else if sv = ['+'] ∨ sv = ['.'] then
        Except.ok ((splitOnChar ',' c4).map (fun a =>
          { chrom := c0, pos := p, name := c2,
            ref := if c3 = ['-'] then [] else c3, alt := a, strand := '+' }))
      else Except.ok []) := by
  rw [parseDataLine, hcols, if_neg (by simp only [List.length_cons]; omega)]
  simp only [List.getD_cons_succ, List.getD_cons_zero]
  rw [hp]
  simp only []
  rw [hsv]

/-- C7: read_vcf_file raises on a #CHROM header whose first five columns are
not exactly #CHROM, POS, ID, REF, ALT; skips data lines with fewer than five
columns; expands comma-separated alternate alleles into one record per allele
sharing chrom, pos, id, ref and strand; and maps a strand column of dash to
the reverse strand, plus or dot to the forward strand, and skips the record
for any other strand value. -/
theorem c7_read_vcf (si : Option ℕ) :
    (∀ (pre : List String) (hline : String) (rest : List String),
      (∀ l ∈ pre, '#' ∈ l.toList ∧ hasSub l.toList "#CHROM".toList = false) →
      hasSub hline.toList "#CHROM".toList = true →
      (splitOnChar '\t' (pyStrip hline.toList)).take 5 ≠ vcfRequiredCols →
      ∃ msg, read_vcf_file (pre ++ hline :: rest) si = .error msg) ∧
    (∀ line : List Char, (splitOnChar '\t' (pyStrip line)).length < 5 →
      parseDataLine si line = .ok []) ∧
    (∀ (line c0 c1 c2 c3 c4 : List Char) (cr : List (List Char)) (p : ℤ),
      splitOnChar '\t' (pyStrip line) = c0 :: c1 :: c2 :: c3 :: c4 :: cr →
      parseInt? c1 = some p →
      ∃ recs, parseDataLine none line = .ok recs ∧
        recs.length = (splitOnChar ',' c4).length ∧
        ∀ r ∈ recs, r.chrom = c0 ∧ r.pos = p ∧ r.name = c2 ∧
          r.ref = (if c3 = ['-'] then [] else c3) ∧ r.strand = '.' ∧
          r.alt ∈ splitOnChar ',' c4) ∧
    (∀ (k : ℕ) (line c0 c1 c2 c3 c4 sv : List Char) (cr : List (List Char))
        (p : ℤ),
      splitOnChar '\t' (pyStrip line) = c0 :: c1 :: c2 :: c3 :: c4 :: cr →
      parseInt? c1 = some p →
      (c0 :: c1 :: c2 :: c3 :: c4 :: cr)[k]? = some sv →
      ((sv = ['-'] → ∃ recs, parseDataLine (some k) line = .ok recs ∧
          recs.length = (splitOnChar ',' c4).length ∧
          ∀ r ∈ recs, r.strand = '-') ∧
       ((sv = ['+'] ∨ sv = ['.']) →
          ∃ recs, parseDataLine (some k) line = .ok recs ∧
            recs.length = (splitOnChar ',' c4).length ∧
            ∀ r ∈ recs, r.strand = '+') ∧
       (sv ≠ ['-'] → sv ≠ ['+'] → sv ≠ ['.'] →
          parseDataLine (some k) line = .ok []))) := by
  refine ⟨?_, ?_, ?_, ?_⟩
  · intro pre hline rest hpre hsub hcols
    refine ⟨"unexpected VCF header columns", ?_⟩
    have hhs := headerScan_error pre hline rest 0 hpre hsub hcols
    rw [read_vcf_file, hhs]
    rfl
  · intro line hlen
    rw [parseDataLine, if_pos hlen]
  · intro line c0 c1 c2 c3 c4 cr p hcols hp
    have h := parseDataLine_eval_none line c0 c1 c2 c3 c4 cr p hcols hp
    refine ⟨_, h, by rw [List.length_map], ?_⟩
    intro r hr
    obtain ⟨a, ha, rfl⟩ := List.mem_map.mp hr
    exact ⟨rfl, rfl, rfl, rfl, rfl, ha⟩
  · intro k line c0 c1 c2 c3 c4 sv cr p hcols hp hsv
    have h := parseDataLine_eval_some k line c0 c1 c2 c3 c4 cr p sv hcols hp hsv
    refine ⟨fun hdash => ?_, fun hfwd => ?_, fun h1 h2 h3 => ?_⟩
    · rw [if_pos hdash] at h
      refine ⟨_, h, by rw [List.length_map], ?_⟩
      intro r hr
      obtain ⟨a, _, rfl⟩ := List.mem_map.mp hr
      rfl
    · rw [if_neg (by rcases hfwd with rfl | rfl <;> decide), if_pos hfwd] at h
      refine ⟨_, h, by rw [List.length_map], ?_⟩
      intro r hr
      obtain ⟨a, _, rfl⟩ := List.mem_map.mp hr
      rfl
    · rw [if_neg h1, if_neg (by simp [h2, h3])] at h
      exact h

/-- Witness for c7_read_vcf: a malformed header line raises, a two-column data
line is skipped, the ALT field G,T expands into two records sharing all other
fields, and a strand column holding a dash yields reverse-strand records. -/
theorem c7_read_vcf_witness :
    (hasSub ("#CHROM\tPOS\tID\tREF\tWRONG").toList "#CHROM".toList = true ∧
      (splitOnChar '\t'
        (pyStrip ("#CHROM\tPOS\tID\tREF\tWRONG").toList)).take 5 ≠
        vcfRequiredCols ∧
      (splitOnChar '\t' (pyStrip ("1\t2").toList)).length < 5 ∧
      splitOnChar '\t' (pyStrip ("1\t100\trs1\tA\tG,T").toList) =
        ["1".toList, "100".toList, "rs1".toList, "A".toList, "G,T".toList] ∧
      parseInt? ("100").toList = some 100) ∧
    (∃ msg, read_vcf_file ["#CHROM\tPOS\tID\tREF\tWRONG"] none = .error msg) ∧
    parseDataLine none ("1\t2").toList = .ok [] ∧
    (∃ recs, parseDataLine none ("1\t100\trs1\tA\tG,T").toList = .ok recs ∧
      recs.length = (splitOnChar ',' ("G,T").toList).length ∧
      ∀ r ∈ recs, r.chrom = ("1").toList ∧ r.pos = 100 ∧
        r.name = ("rs1").toList ∧
        r.ref = (if ("A").toList = ['-'] then [] else ("A").toList) ∧
        r.strand = '.' ∧ r.alt ∈ splitOnChar ',' ("G,T").toList) ∧
    (∃ recs, parseDataLine (some 5) ("1\t100\trs1\tA\tG\t-").toList =
        .ok recs ∧
      recs.length = (splitOnChar ',' ("G").toList).length ∧
      ∀ r ∈ recs, r.strand = '-') := by
  refine ⟨⟨by decide, by decide, by decide, by decide, by decide⟩,
    ?_, ?_, ?_, ?_⟩
  · exact (c7_read_vcf none).1 [] "#CHROM\tPOS\tID\tREF\tWRONG" []
      (by simp) (by decide) (by decide)
  · exact (c7_read_vcf none).2.1 ("1\t2").toList (by decide)
  · exact (c7_read_vcf none).2.2.1 ("1\t100\trs1\tA\tG,T").toList
      ("1").toList ("100").toList ("rs1").toList ("A").toList ("G,T").toList
      [] 100 (by decide) (by decide)
  · exact ((c7_read_vcf none).2.2.2 5 ("1\t100\trs1\tA\tG\t-").toList
      ("1").toList ("100").toList ("rs1").toList ("A").toList ("G").toList
      ("-").toList [("-").toList] 100 (by decide) (by decide) (by decide)).1
      (by decide)
